import Mathlib

/-!
Shallow embedding of the Instagram discovery-and-ranking pipeline of this
repository (files `instagram_finder.py`, `instgram_finder.py`,
`top_posts.py`), together with theorems settling the specification claims.

Python floats are modelled as exact rationals (`ℚ`); Python's `round(x, n)`
is modelled as exact round-half-to-even at `n` decimal digits; Python string
operations used by the code are modelled by structural functions over
`String.data` so that everything evaluates inside the kernel.
-/

/-! ## String helpers (models of the Python string operations used) -/

/-- Split a character list at the first occurrence of the character
sequence `pat`: returns the part before and the part after, or `none` when
`pat` does not occur.  Models Python substring search. -/
def splitFirstSeq (pat : List Char) : List Char → Option (List Char × List Char)
  | [] => if pat = [] then some ([], []) else none
  | x :: xs =>
    if pat.isPrefixOf (x :: xs) then some ([], (x :: xs).drop pat.length)
    else
      match splitFirstSeq pat xs with
      | some (a, b) => some (x :: a, b)
      | none => none

/-- `pat in s` of Python: substring containment. -/
def strContains (s pat : String) : Bool :=
  (splitFirstSeq pat.data s.data).isSome

/-- Split a character list on a separator character; models Python
`str.split(sep)` for a one-character separator. -/
def splitChar (c : Char) : List Char → List (List Char)
  | [] => [[]]
  | x :: xs =>
    let r := splitChar c xs
    if x = c then [] :: r
    else
      match r with
      | h :: t => (x :: h) :: t
      | [] => [[x]]

/-- ASCII lower-casing of a string; models Python `str.lower()` on the
ASCII inputs this pipeline deals with. -/
def toLowerStr (s : String) : String :=
  (s.data.map Char.toLower).asString

/-! ## `instagram_finder.py`: config and candidate extraction -/

def MAX_ACCOUNTS : Nat := 500
def TOP_ACCOUNTS : Nat := 100

/-- `EXCLUDED_PATHS` of `instagram_finder.py`, verbatim. -/
def EXCLUDED_PATHS : List String :=
  ["p", "reel", "tv", "stories",
   "explore", "accounts", "direct",
   "about", "developer", "privacy",
   "terms", "blog"]

/-- `USERNAME_REGEX = ^[a-zA-Z0-9._]{1,30}$` as a decidable check. -/
def usernameRegexMatch (s : String) : Bool :=
  decide (1 ≤ s.length) && decide (s.length ≤ 30) &&
    s.data.all (fun c => c.isAlphanum || c = '.' || c = '_')

/-- The two fields of Python's `urllib.parse.urlparse` that the code
reads. -/
structure ParsedUrl where
  netloc : String
  path : String
deriving DecidableEq

/-- Model of `urllib.parse.urlparse` restricted to the fields used by the
extractor: fragment and query are stripped, the netloc is the region
between `://` and the next `/`, and the path is the rest; a link with no
scheme separator has an empty netloc and is all path. -/
def urlparse (link : String) : ParsedUrl :=
  let chars := (link.data.takeWhile (· ≠ '#')).takeWhile (· ≠ '?')
  match splitFirstSeq "://".data chars with
  | none => { netloc := "", path := chars.asString }
  | some (_, rest) =>
    { netloc := (rest.takeWhile (· ≠ '/')).asString
      path := (rest.dropWhile (· ≠ '/')).asString }

/-- `[p for p in parsed.path.split("/") if p]`. -/
def pathSegments (path : String) : List String :=
  ((splitChar '/' path.data).filter (fun p => p ≠ [])).map List.asString

/-- `extract_valid_instagram_username` of `instagram_finder.py`.  The
source wraps the body in `try/except` returning `None`; every modelled
operation is total, so no exceptional branch arises. -/
def extract_valid_instagram_username (link : String) : Option String :=
  let parsed := urlparse link
  if ¬ strContains parsed.netloc "instagram.com" then none
  else
    match pathSegments parsed.path with
    | [seg] =>
      let username := toLowerStr seg
      if username ∈ EXCLUDED_PATHS then none
      else if ¬ usernameRegexMatch username then none
      else some username
    | _ => none

/-! ## Rounding: Python `round(x, 4)` over exact rationals -/

/-- Round-half-to-even to the nearest integer (Python `round` semantics),
over exact rationals. -/
def roundHalfEven (q : ℚ) : ℤ :=
  let f := ⌊q⌋
  let frac := q - (f : ℚ)
  if frac < 1/2 then f
  else if 1/2 < frac then f + 1
  else if f % 2 = 0 then f else f + 1

/-- Python `round(x, 4)`. -/
def round4 (q : ℚ) : ℚ :=
  (roundHalfEven (q * 10000) : ℚ) / 10000

/-! ## `top_posts.py`: per-post scoring -/

/-- The four raw counters of one recent post, as read by
`compute_final_score` (`views` there is the `plays` insight). -/
structure Post where
  likes : Nat
  comments : Nat
  shares : Nat
  plays : Nat
deriving DecidableEq

/-- Step 1 of `compute_final_score`: the VSR / engagement weight
`(comments * 10) + (shares * 10) + (likes * 3) + (views * 0.1)`. -/
def engagement_weight (p : Post) : ℚ :=
  (p.comments : ℚ) * 10 + (p.shares : ℚ) * 10 + (p.likes : ℚ) * 3 + (p.plays : ℚ) * (1/10)

/-- Step 2 of `compute_final_score`: the VM factor
`views / avg_views_30d if avg_views_30d > 0 else 1`. -/
def view_momentum (views : Nat) (avg_views_30d : ℚ) : ℚ :=
  if 0 < avg_views_30d then (views : ℚ) / avg_views_30d else 1

/-- Step 3 of `compute_final_score`: the FE factor
`views / followers if followers > 0 else 0`. -/
def follower_efficiency (views followers : Nat) : ℚ :=
  if 0 < followers then (views : ℚ) / (followers : ℚ) else 0

/-- `compute_final_score` of `top_posts.py`: `round(vsr * vm * fe, 4)`. -/
def compute_final_score (post : Post) (avg_views_30d : ℚ) (followers : Nat) : ℚ :=
  let vsr := engagement_weight post
  let vm := view_momentum post.plays avg_views_30d
  let fe := follower_efficiency post.plays followers
  round4 (vsr * vm * fe)

/-- The average-views computation of `fetch_top_posts_by_username`:
`view_samples = [p["plays"] for p in recent_posts if p["plays"] > 0]`,
`avg = sum / len if view_samples else 0`. -/
def avg_views_30d (recent_posts : List Post) : ℚ :=
  let view_samples := (recent_posts.filter (fun p => decide (0 < p.plays))).map (·.plays)
  if view_samples = [] then 0 else ((view_samples.sum : ℚ) / (view_samples.length : ℚ))

/-- Modelled from the spec: the arithmetic mean of the views counts of all
posts in the window, `0` on the empty window ("avg_views = mean(views
across the window); if window empty, avg_views = 0").  Used only to compare
the code's `avg_views_30d` against the spec's words. -/
def avg_views_spec (recent_posts : List Post) : ℚ :=
  if recent_posts = [] then 0
  else ((recent_posts.map (fun p => (p.plays : ℚ))).sum / (recent_posts.length : ℚ))

/-! ## `instagram_finder.py`: enrichment of one account -/

/-- One Graph-API media record as read by the (dead) real-scoring branch of
`process_account`. -/
structure GraphPost where
  like_count : Nat
  comments_count : Nat
deriving DecidableEq

/-- `fallback_score` of `instagram_finder.py`:
`followers * 0.01 if followers else 0.0`. -/
def fallback_score (followers : Nat) : ℚ :=
  if followers ≠ 0 then (followers : ℚ) * (1/100) else 0

/-- One entry of the `top_accounts` response list. -/
structure AccountRecord where
  username : String
  followers : Option Nat
  post_count : Nat
  account_score : ℚ
  data_source : String
deriving DecidableEq

/-- Python truthiness of the optional `min_followers` integer. -/
def pyTruthy (mf : Option Int) : Bool :=
  match mf with
  | none => false
  | some m => m != 0

/-- `process_account` of `instagram_finder.py`.  `followers` starts as
`None` and `posts` as `[]`; the authorized Graph-API branch
(`if IG_ACCESS_TOKEN:`) contains only `pass` in the source (the Graph API
needs an IG user id, not a username), so neither variable is ever
assigned before the `followers is None` test.  The remaining branches are
kept verbatim even though they are unreachable. -/
def process_account (username : String) (min_followers : Option Int) :
    Option AccountRecord :=
  let followers : Option Nat := none
  let posts : List GraphPost := []
  match followers with
  | none =>
    let score := fallback_score 0
    some { username := username, followers := none, post_count := 0,
           account_score := round4 score, data_source := "fallback" }
  | some f =>
    if pyTruthy min_followers = true ∧ (f : Int) < min_followers.getD 0 then
      none
    else
      let score :=
        if posts ≠ [] then
          (((posts.map (fun p => ((p.like_count + p.comments_count : Nat) : ℚ))).sum
              / (posts.length : ℚ)) * ((f : ℚ) / 1000))
        else fallback_score f
      some { username := username, followers := some f,
             post_count := posts.length,
             account_score := round4 score,
             data_source := if posts ≠ [] then "graph" else "fallback" }

/-! ## `instagram_finder.py`: discovery loop of `discover_and_rank` -/

/-- One organic search result; `discover_and_rank` reads only
`item.get("link", "")`, `extract_instagram_profiles` also reads title and
snippet. -/
structure SearchItem where
  link : String
  title : String
  snippet : String
deriving DecidableEq

/-- Mutable state of the discovery loop: the `usernames` list, the `seen`
set (modelled as a list with the same membership), the pagination offset
`start` and the number of search calls made so far. -/
structure LoopState where
  usernames : List String
  seen : List String
  start : Nat
  calls : Nat
deriving DecidableEq

def initState : LoopState :=
  { usernames := [], seen := [], start := 0, calls := 0 }

/-- The inner `for item in data.get("organic_results", [])` body: extract a
username, add it if valid and unseen, and `break` as soon as
`len(usernames) >= MAX_ACCOUNTS`. -/
def processResults : List SearchItem → List String → List String →
    List String × List String
  | [], usernames, seen => (usernames, seen)
  | item :: rest, usernames, seen =>
    let p :=
      match extract_valid_instagram_username item.link with
      | some u => if u ∈ seen then (usernames, seen)
                  else (usernames ++ [u], seen ++ [u])
      | none => (usernames, seen)
    if MAX_ACCOUNTS ≤ p.1.length then p
    else processResults rest p.1 p.2

/-- One iteration body of the `while` loop: fetch the page at the current
offset (the provider is a pure function of the offset), advance `start`
by 20, count the call, and fold the page into the state. -/
def stepPage (provider : Nat → List SearchItem) (s : LoopState) : LoopState :=
  let page := provider s.start
  let p := processResults page s.usernames s.seen
  { usernames := p.1, seen := p.2, start := s.start + 20, calls := s.calls + 1 }

/-- The `while len(usernames) < MAX_ACCOUNTS` discovery loop, driven by
fuel: `none` means the loop is still running after `fuel` search calls.
After each call the loop `break`s when the page had no organic results. -/
def discoverLoop (provider : Nat → List SearchItem) :
    Nat → LoopState → Option LoopState
  | 0, _ => none
  | fuel + 1, s =>
    if s.usernames.length < MAX_ACCOUNTS then
      let s' := stepPage provider s
      if provider s.start = [] then some s'
      else discoverLoop provider fuel s'
    else some s

/-! ## `instagram_finder.py`: ranking and response shaping -/

/-- Stable insertion step: the new element is placed after every already
sorted element with a strictly greater score and before the first element
with a smaller-or-equal score. -/
def insertByScore (a : AccountRecord) : List AccountRecord → List AccountRecord
  | [] => [a]
  | b :: bs =>
    if a.account_score < b.account_score then b :: insertByScore a bs
    else a :: b :: bs

/-- `sorted(results, key=lambda x: x["account_score"], reverse=True)`:
Python's sort is stable, and a stable sort under a fixed comparator has a
unique output, so this insertion sort is extensionally the same
function. -/
def sortByScoreDesc : List AccountRecord → List AccountRecord
  | [] => []
  | a :: rest => insertByScore a (sortByScoreDesc rest)

/-- The `/instagram/rank` response shape. -/
structure RankResponse where
  status : String
  total_accounts : Nat
  top_accounts : List AccountRecord
deriving DecidableEq

/-- The response-shaping tail of `discover_and_rank`: sort the gathered
results by score descending and truncate to `TOP_ACCOUNTS`, reporting the
pre-truncation count. -/
def rank_accounts (results : List AccountRecord) : RankResponse :=
  { status := "success",
    total_accounts := results.length,
    top_accounts := (sortByScoreDesc results).take TOP_ACCOUNTS }

/-- The whole `discover_and_rank` request body after the `SERPAPI_KEY`
check, for a fixed provider: run the discovery loop, enrich every
discovered username (dropping `None` results as `[r for r in ... if r]`
does), rank and shape.  `none` means the discovery loop had not finished
within `fuel` search calls. -/
def discover_and_rank (provider : Nat → List SearchItem)
    (min_followers : Option Int) (fuel : Nat) : Option RankResponse :=
  (discoverLoop provider fuel initState).map fun s =>
    rank_accounts (s.usernames.filterMap (fun u => process_account u min_followers))

/-! ## `instgram_finder.py`: the sibling extractor with per-call dedup -/

/-- `normalize_instagram_url`: `url.split("?")[0].rstrip("/")`. -/
def normalize_instagram_url (url : String) : String :=
  (((url.data.takeWhile (· ≠ '?')).reverse.dropWhile (· = '/')).reverse).asString

/-- `extract_username`: `profile_url.rstrip("/").split("/")[-1]`. -/
def extract_username (profile_url : String) : String :=
  ((splitChar '/' ((profile_url.data.reverse.dropWhile (· = '/')).reverse)).getLastD []).asString

/-- One output record of `extract_instagram_profiles` (the follower count
comes from a per-username fetch, modelled as a pure oracle). -/
structure Profile where
  username : String
  profile_url : String
  followers : Option Nat
  title : String
  snippet : String
  source : String
deriving DecidableEq

/-- `extract_instagram_profiles` of `instgram_finder.py`: keep links
containing `instagram.com/`, normalize, take the last path segment as the
username, and skip usernames already seen in this call. -/
def extract_instagram_profiles (items : List SearchItem)
    (followersOf : String → Option Nat) : List Profile :=
  go items []
where
  go : List SearchItem → List String → List Profile
    | [], _ => []
    | item :: rest, seen_users =>
      if ¬ strContains item.link "instagram.com/" then go rest seen_users
      else
        let clean_url := normalize_instagram_url item.link
        let username := extract_username clean_url
        if username ∈ seen_users then go rest seen_users
        else
          { username := username, profile_url := clean_url,
            followers := followersOf username,
            title := item.title, snippet := item.snippet,
            source := "google_index" } :: go rest (seen_users ++ [username])

/-! ## Theorems: scoring claims -/

/-- C3: for every post and every followers value, when the average views
over the window is `0`, the `view_momentum` factor used in
`compute_final_score` equals exactly `1` (neither `0` nor undefined), and
`compute_final_score` multiplies with that neutral factor. -/
theorem view_momentum_neutral_when_avg_zero (p : Post) (followers : Nat) :
    view_momentum p.plays 0 = 1 ∧
    compute_final_score p 0 followers =
      round4 (engagement_weight p * 1 * follower_efficiency p.plays followers) := by
  constructor
  · simp [view_momentum]
  · simp [compute_final_score, view_momentum]

/-- C4: for every pair of posts identical except in exactly one counter
among likes, comments, shares, views (`plays`), where that counter is
strictly greater in one post, that post's `engagement_weight` is strictly
greater. -/
theorem engagement_weight_strict_mono (p q : Post) :
    (p.comments = q.comments → p.shares = q.shares → p.plays = q.plays →
      p.likes < q.likes → engagement_weight p < engagement_weight q) ∧
    (p.likes = q.likes → p.shares = q.shares → p.plays = q.plays →
      p.comments < q.comments → engagement_weight p < engagement_weight q) ∧
    (p.likes = q.likes → p.comments = q.comments → p.plays = q.plays →
      p.shares < q.shares → engagement_weight p < engagement_weight q) ∧
    (p.likes = q.likes → p.comments = q.comments → p.shares = q.shares →
      p.plays < q.plays → engagement_weight p < engagement_weight q) := by
  refine ⟨fun h1 h2 h3 h4 => ?_, fun h1 h2 h3 h4 => ?_,
         fun h1 h2 h3 h4 => ?_, fun h1 h2 h3 h4 => ?_⟩ <;>
    [skip; skip; skip; skip] <;>
  · have h4' : ((_ : Nat) : ℚ) < _ := Nat.cast_lt.mpr h4
    unfold engagement_weight
    rw [h1, h2, h3]
    linarith

/-- Witness for C4 at concrete posts differing in one counter each. -/
theorem engagement_weight_strict_mono_witness :
    engagement_weight ⟨0, 0, 0, 0⟩ < engagement_weight ⟨1, 0, 0, 0⟩ ∧
    engagement_weight ⟨0, 0, 0, 0⟩ < engagement_weight ⟨0, 1, 0, 0⟩ ∧
    engagement_weight ⟨0, 0, 0, 0⟩ < engagement_weight ⟨0, 0, 1, 0⟩ ∧
    engagement_weight ⟨0, 0, 0, 0⟩ < engagement_weight ⟨0, 0, 0, 1⟩ :=
  ⟨(engagement_weight_strict_mono _ _).1 rfl rfl rfl (by decide),
   (engagement_weight_strict_mono _ _).2.1 rfl rfl rfl (by decide),
   (engagement_weight_strict_mono _ _).2.2.1 rfl rfl rfl (by decide),
   (engagement_weight_strict_mono _ _).2.2.2 rfl rfl rfl (by decide)⟩

/-- C5: the spec's worked example — `likes=100, comments=50, shares=20,
views=10000`, `followers=5000`, `avg_views=5000` — yields
`engagement_weight = 2000`, `view_momentum = 2`, `follower_efficiency = 2`
and `final_score = 8000`. -/
theorem example_scenario_score :
    engagement_weight ⟨100, 50, 20, 10000⟩ = 2000 ∧
    view_momentum 10000 5000 = 2 ∧
    follower_efficiency 10000 5000 = 2 ∧
    compute_final_score ⟨100, 50, 20, 10000⟩ 5000 5000 = 8000 := by
  refine ⟨?_, ?_, ?_, ?_⟩ <;>
    norm_num [engagement_weight, view_momentum, follower_efficiency,
      compute_final_score, round4, roundHalfEven]

/-! ## Theorems: enrichment degradation -/

/-- C2: for every handle that reaches enrichment, `process_account`
returns a record for that handle with `data_source = "fallback"` and a
non-negative `account_score`.  The function is total and always returns
`some`, so the enrichment step never aborts the ranking request. -/
theorem process_account_graceful (u : String) (mf : Option Int) :
    ∃ r, process_account u mf = some r ∧ r.username = u ∧
      r.data_source = "fallback" ∧ 0 ≤ r.account_score :=
  ⟨_, rfl, rfl, rfl, by norm_num [round4, roundHalfEven, fallback_score]⟩

/-! ## Theorems: the average-views window -/

/-- Counterexample to C8: for the two-post window with views `0` and `10`,
the code's `avg_views_30d` is `10` (it averages only the posts with
strictly positive views), while the spec's mean over all posts in the
window is `5`. -/
theorem avg_views_counterexample :
    avg_views_30d [⟨0, 0, 0, 0⟩, ⟨0, 0, 0, 10⟩] = 10 ∧
    avg_views_spec [⟨0, 0, 0, 0⟩, ⟨0, 0, 0, 10⟩] = 5 ∧
    avg_views_30d [⟨0, 0, 0, 0⟩, ⟨0, 0, 0, 10⟩] ≠
      avg_views_spec [⟨0, 0, 0, 0⟩, ⟨0, 0, 0, 10⟩] := by
  have h1 : avg_views_30d [⟨0, 0, 0, 0⟩, ⟨0, 0, 0, 10⟩] = 10 := by
    norm_num [avg_views_30d, List.filter]
  have h2 : avg_views_spec [⟨0, 0, 0, 0⟩, ⟨0, 0, 0, 10⟩] = 5 := by
    unfold avg_views_spec
    rw [if_neg (by decide)]
    norm_num
  exact ⟨h1, h2, by rw [h1, h2]; norm_num⟩

/-- C8 as amended: `avg_views_30d` equals the arithmetic mean of the views
counts of the posts in the window with strictly positive views, and is `0`
when no post has positive views — in particular when the window is
empty. -/
theorem avg_views_eq_mean_of_positive (recent_posts : List Post) :
    avg_views_30d recent_posts =
      avg_views_spec (recent_posts.filter (fun p => decide (0 < p.plays))) := by
  unfold avg_views_30d avg_views_spec
  by_cases h : recent_posts.filter (fun p => decide (0 < p.plays)) = []
  · simp [h]
  · rw [if_neg (by simpa using h), if_neg h]
    simp [Nat.cast_list_sum, List.map_map]

/-! ## Theorems: candidate validation -/

/-- Any username the extractor emits has passed the `EXCLUDED_PATHS`
guard (the emitted name is the lower-cased path segment, so the guard is
case-insensitive in the original casing). -/
theorem extract_emits_only_unexcluded {link u : String}
    (h : extract_valid_instagram_username link = some u) :
    u ∉ EXCLUDED_PATHS := by
  simp only [extract_valid_instagram_username] at h
  split at h
  · exact absurd h (by simp)
  · split at h
    · split at h
      · exact absurd h (by simp)
      · split at h
        · exact absurd h (by simp)
        · next hmem _ =>
          obtain rfl : _ = u := Option.some.inj h
          exact hmem
    · exact absurd h (by simp)

/-- C6 as amended: for every link and every word of the code's reserved
set `EXCLUDED_PATHS` (`p/reel/tv/stories/explore/accounts/direct/about/`
`developer/privacy/terms/blog`), the extractor never emits that word as a
candidate handle; emitted handles are the lower-cased path segment, so
this holds for all casings of the segment. -/
theorem extract_never_emits_reserved (link w : String)
    (hw : w ∈ EXCLUDED_PATHS) :
    extract_valid_instagram_username link ≠ some w :=
  fun hEq => extract_emits_only_unexcluded hEq hw

/-- Witness for C6 as amended: the upper-cased reserved segment `REEL` is
not extracted as the handle `reel`. -/
theorem extract_never_emits_reserved_witness :
    extract_valid_instagram_username "https://instagram.com/REEL" ≠ some "reel" :=
  extract_never_emits_reserved "https://instagram.com/REEL" "reel" (by decide)

/-- Counterexample to C6 as stated: the claimed reserved words `post` and
`story` are not in the code's `EXCLUDED_PATHS` (which has `p`, `stories`
and `tv` instead), and links whose single path segment is `post` or
`story` ARE extracted as candidate handles. -/
theorem reserved_post_story_extracted :
    extract_valid_instagram_username "https://instagram.com/post" = some "post" ∧
    extract_valid_instagram_username "https://instagram.com/story" = some "story" :=
  ⟨by decide, by decide⟩

/-! ## Theorems: deduplication -/

/-- Folding one page of results preserves distinctness of the username
queue and agreement between the queue and the seen set. -/
theorem processResults_inv (items : List SearchItem) :
    ∀ usernames seen : List String, usernames.Nodup → usernames = seen →
      (processResults items usernames seen).1.Nodup ∧
        (processResults items usernames seen).1 =
          (processResults items usernames seen).2 := by
  induction items with
  | nil => intro us seen h1 h2; simpa [processResults] using ⟨h1, h2⟩
  | cons item rest ih =>
    intro us seen h1 h2
    subst h2
    rw [processResults]
    cases hx : extract_valid_instagram_username item.link with
    | none =>
      simp only [hx]
      split
      · exact ⟨h1, rfl⟩
      · exact ih us us h1 rfl
    | some u =>
      simp only [hx]
      by_cases hu : u ∈ us
      · simp only [if_pos hu]
        split
        · exact ⟨h1, rfl⟩
        · exact ih us us h1 rfl
      · simp only [if_neg hu]
        have h1' : (us ++ [u]).Nodup := by
          simp [List.nodup_append, h1, hu]
        split
        · exact ⟨h1', rfl⟩
        · exact ih _ _ h1' rfl

/-- The discovery loop preserves the dedup invariant across pages. -/
theorem discoverLoop_inv :
    ∀ (fuel : Nat) (provider : Nat → List SearchItem) (s s' : LoopState),
      s.usernames.Nodup → s.usernames = s.seen →
      discoverLoop provider fuel s = some s' →
      s'.usernames.Nodup ∧ s'.usernames = s'.seen := by
  intro fuel
  induction fuel with
  | zero => intro p s s' _ _ h; exact absurd h (by simp [discoverLoop])
  | succ n ih =>
    intro p s s' h1 h2 h
    rw [discoverLoop] at h
    split at h
    · have hstep := processResults_inv (p s.start) s.usernames s.seen h1 h2
      split at h
      · obtain rfl := Option.some.inj h
        exact ⟨hstep.1, hstep.2⟩
      · exact ih p (stepPage p s) s' hstep.1 hstep.2 h
    · obtain rfl := Option.some.inj h
      exact ⟨h1, h2⟩

/-- `extract_instagram_profiles.go` emits no username twice and none that
was already seen. -/
theorem extract_profiles_go_nodup (followersOf : String → Option Nat) :
    ∀ (items : List SearchItem) (seen_users : List String),
      ((extract_instagram_profiles.go followersOf items seen_users).map
        (·.username)).Nodup ∧
      ∀ u ∈ (extract_instagram_profiles.go followersOf items seen_users).map
        (·.username), u ∉ seen_users := by
  intro items
  induction items with
  | nil => intro seen; simp [extract_instagram_profiles.go]
  | cons item rest ih =>
    intro seen
    rw [extract_instagram_profiles.go]
    dsimp only
    split
    · exact ih seen
    · split
      · exact ih seen
      · next hseen =>
        obtain ⟨ihn, ihs⟩ :=
          ih (seen ++ [extract_username (normalize_instagram_url item.link)])
        constructor
        · rw [List.map_cons, List.nodup_cons]
          refine ⟨fun hmem => ?_, ihn⟩
          exact ihs _ hmem (by simp)
        · intro u hu
          rcases List.mem_cons.mp hu with rfl | hmem
          · exact hseen
          · intro hs
            exact ihs u hmem (by simp [hs])

/-- C7: across the whole discovery loop the queue of candidates handed to
enrichment contains each handle at most once — even when the same handle
is reached through different URL query strings, which the extractor
strips — and the per-call dedup of `extract_instagram_profiles` likewise
emits each username exactly once. -/
theorem discovery_candidates_nodup :
    (∀ (provider : Nat → List SearchItem) (fuel : Nat) (s : LoopState),
      discoverLoop provider fuel initState = some s → s.usernames.Nodup) ∧
    ∀ (items : List SearchItem) (followersOf : String → Option Nat),
      ((extract_instagram_profiles items followersOf).map (·.username)).Nodup :=
  ⟨fun provider fuel s h =>
    (discoverLoop_inv fuel provider initState s (by simp [initState]) rfl h).1,
   fun items followersOf => (extract_profiles_go_nodup followersOf items []).1⟩

/-- The spec's example discovery page: `beanlove`, a reserved `reel` link,
and `beanlove` again behind a query string; the page at every later offset
is empty. -/
def pBean : Nat → List SearchItem := fun off =>
  if off = 0 then
    [{ link := "https://instagram.com/beanlove", title := "t1", snippet := "s1" },
     { link := "https://instagram.com/reel/xyz", title := "t2", snippet := "s2" },
     { link := "https://instagram.com/beanlove?utm=1", title := "t3", snippet := "s3" }]
  else []

/-- Witness for C7 on the spec's example scenario: the three links
collapse to the single candidate `beanlove` and the queue is duplicate
free. -/
theorem discovery_candidates_nodup_witness :
    (LoopState.mk ["beanlove"] ["beanlove"] 40 2).usernames.Nodup :=
  discovery_candidates_nodup.1 pBean 2 ⟨["beanlove"], ["beanlove"], 40, 2⟩ (by decide)

/-! ## Theorems: the discovery loop and its call bound -/

/-- A provider that keeps answering the same nonempty page of an already
seen handle, at every offset. -/
def pDup : Nat → List SearchItem := fun _ =>
  [{ link := "https://instagram.com/beanlove", title := "t", snippet := "s" }]

/-- Once the loop holds exactly the duplicate handle, the `pDup` provider
keeps it running forever: no amount of fuel finishes it. -/
theorem discoverLoop_pDup_stuck :
    ∀ (fuel start calls : Nat),
      discoverLoop pDup fuel ⟨["beanlove"], ["beanlove"], start, calls⟩ = none := by
  intro fuel
  induction fuel with
  | zero => intro start calls; rfl
  | succ n ih =>
    intro start calls
    rw [discoverLoop, if_pos (by simp [MAX_ACCOUNTS]), if_neg (by simp [pDup])]
    have hstep : stepPage pDup ⟨["beanlove"], ["beanlove"], start, calls⟩ =
        ⟨["beanlove"], ["beanlove"], start + 20, calls + 1⟩ := by
      have hp : processResults
          [{ link := "https://instagram.com/beanlove", title := "t", snippet := "s" }]
          ["beanlove"] ["beanlove"] = (["beanlove"], ["beanlove"]) := by decide
      simp [stepPage, pDup, hp]
    rw [hstep]
    exact ih (start + 20) (calls + 1)

/-- Counterexample to C9 as stated: with provider `pDup` — every page
nonempty, never a new unique candidate — the loop is still running after
`501 > MAX_ACCOUNTS` search calls, so the number of external calls is not
bounded by the configured maximum "regardless of provider behavior". -/
theorem discover_loop_unbounded_counterexample :
    MAX_ACCOUNTS < 501 ∧ discoverLoop pDup 501 initState = none := by
  refine ⟨by decide, ?_⟩
  rw [discoverLoop, if_pos (by decide), if_neg (by decide)]
  have hstep : stepPage pDup initState = ⟨["beanlove"], ["beanlove"], 20, 1⟩ := by decide
  rw [hstep]
  exact discoverLoop_pDup_stuck 500 20 1

/-- C9 as amended: the loop stops as soon as the running unique-candidate
count reaches `MAX_ACCOUNTS` (making no further search call) or the page
just fetched returned zero results (stopping right after that call); the
total number of search calls is, however, NOT bounded for arbitrary
provider behavior — it is bounded only when every nonempty page
contributes a new unique candidate or eventually a page comes back
empty. -/
theorem discover_loop_stop_conditions (provider : Nat → List SearchItem)
    (fuel : Nat) (s : LoopState) :
    (MAX_ACCOUNTS ≤ s.usernames.length →
      discoverLoop provider (fuel + 1) s = some s) ∧
    (s.usernames.length < MAX_ACCOUNTS → provider s.start = [] →
      discoverLoop provider (fuel + 1) s = some (stepPage provider s)) := by
  constructor
  · intro h
    rw [discoverLoop, if_neg (by omega)]
  · intro h hp
    rw [discoverLoop, if_pos h, if_pos hp]

/-- A provider with no results at all. -/
def pEmpty : Nat → List SearchItem := fun _ => []

/-- A loop state that already reached the `MAX_ACCOUNTS` cap. -/
def fullState : LoopState :=
  ⟨List.replicate 500 "x", List.replicate 500 "x", 0, 0⟩

/-- Witness for C9 as amended: at the cap the loop returns immediately,
and on an empty first page it returns right after that single call. -/
theorem discover_loop_stop_conditions_witness :
    discoverLoop pEmpty 1 fullState = some fullState ∧
    discoverLoop pEmpty 1 initState = some (stepPage pEmpty initState) :=
  ⟨(discover_loop_stop_conditions pEmpty 0 fullState).1
      (by show MAX_ACCOUNTS ≤ (List.replicate 500 "x").length
          rw [List.length_replicate]
          decide),
   (discover_loop_stop_conditions pEmpty 0 initState).2 (by decide) rfl⟩

/-! ## Theorems: ranking -/

/-- Inserting keeps the list a permutation of the element consed on. -/
theorem insertByScore_perm (a : AccountRecord) (l : List AccountRecord) :
    List.Perm (insertByScore a l) (a :: l) := by
  induction l with
  | nil => exact List.Perm.refl _
  | cons b bs ih =>
    rw [insertByScore]
    split
    · exact (ih.cons b).trans (List.Perm.swap a b bs)
    · exact List.Perm.refl _

/-- Sorting permutes the input. -/
theorem sortByScoreDesc_perm (l : List AccountRecord) :
    List.Perm (sortByScoreDesc l) l := by
  induction l with
  | nil => exact List.Perm.refl _
  | cons a rest ih =>
    rw [sortByScoreDesc]
    exact (insertByScore_perm a (sortByScoreDesc rest)).trans (ih.cons a)

/-- Inserting preserves the descending-by-score order. -/
theorem sorted_insertByScore (a : AccountRecord) (l : List AccountRecord)
    (h : List.Sorted (fun x y => y.account_score ≤ x.account_score) l) :
    List.Sorted (fun x y => y.account_score ≤ x.account_score) (insertByScore a l) := by
  induction l with
  | nil => simp [insertByScore]
  | cons b bs ih =>
    rw [List.sorted_cons] at h
    obtain ⟨hb, hbs⟩ := h
    rw [insertByScore]
    split
    · next hlt =>
      rw [List.sorted_cons]
      refine ⟨fun c hc => ?_, ih hbs⟩
      rcases List.mem_cons.mp ((insertByScore_perm a bs).mem_iff.mp hc) with rfl | hcb
      · exact le_of_lt hlt
      · exact hb c hcb
    · next hge =>
      push_neg at hge
      rw [List.sorted_cons]
      refine ⟨fun c hc => ?_, List.sorted_cons.mpr ⟨hb, hbs⟩⟩
      rcases List.mem_cons.mp hc with rfl | hcbs
      · exact hge
      · exact le_trans (hb c hcbs) hge

/-- The sort output is descending by `account_score`. -/
theorem sorted_sortByScoreDesc (l : List AccountRecord) :
    List.Sorted (fun x y => y.account_score ≤ x.account_score) (sortByScoreDesc l) := by
  induction l with
  | nil => simp [sortByScoreDesc]
  | cons a rest ih =>
    rw [sortByScoreDesc]
    exact sorted_insertByScore a _ ih

/-- Stability of the insertion step, phrased through score-slices: the
elements of any fixed score keep their relative order, the new element
going first among its ties only when consed in front. -/
theorem filter_insertByScore (a : AccountRecord) (l : List AccountRecord) (q : ℚ) :
    (insertByScore a l).filter (fun b => decide (b.account_score = q)) =
      if a.account_score = q then
        a :: l.filter (fun b => decide (b.account_score = q))
      else l.filter (fun b => decide (b.account_score = q)) := by
  induction l with
  | nil =>
    by_cases haq : a.account_score = q <;>
      simp [insertByScore, List.filter, haq]
  | cons b bs ih =>
    rw [insertByScore]
    split
    · next hlt =>
      rw [List.filter_cons, List.filter_cons, ih]
      by_cases haq : a.account_score = q
      · by_cases hbq : b.account_score = q
        · exact absurd hlt (by rw [haq, hbq]; exact lt_irrefl q)
        · simp [haq, hbq]
      · simp [haq]
    · next hge =>
      by_cases haq : a.account_score = q <;>
        simp [List.filter_cons, haq]

/-- Stability of the whole sort: every score-slice of the output equals
the same score-slice of the input, i.e. ties preserve discovery order. -/
theorem filter_sortByScoreDesc (l : List AccountRecord) (q : ℚ) :
    (sortByScoreDesc l).filter (fun b => decide (b.account_score = q)) =
      l.filter (fun b => decide (b.account_score = q)) := by
  induction l with
  | nil => rfl
  | cons a rest ih =>
    rw [sortByScoreDesc, filter_insertByScore, List.filter_cons]
    by_cases h : a.account_score = q
    · simp [h, ih]
    · simp [h, ih]

/-- C1: for every gathered result list, the ranked response reports the
pre-truncation count in `total_accounts`, its `top_accounts` is the
`TOP_ACCOUNTS`-truncation of a permutation of the results sorted by
`account_score` descending, and ties preserve discovery order (every
score-slice of the sorted list equals that of the input).  All stages are
pure functions, so two runs on a fixed input are definitionally
identical. -/
theorem rank_accounts_spec (results : List AccountRecord) :
    (rank_accounts results).total_accounts = results.length ∧
    (rank_accounts results).top_accounts =
      (sortByScoreDesc results).take TOP_ACCOUNTS ∧
    (rank_accounts results).top_accounts.length = min TOP_ACCOUNTS results.length ∧
    List.Sorted (fun x y => y.account_score ≤ x.account_score)
      (rank_accounts results).top_accounts ∧
    List.Perm (sortByScoreDesc results) results ∧
    ∀ q : ℚ, (sortByScoreDesc results).filter (fun b => decide (b.account_score = q)) =
      results.filter (fun b => decide (b.account_score = q)) := by
  refine ⟨rfl, rfl, ?_, ?_, sortByScoreDesc_perm results,
    fun q => filter_sortByScoreDesc results q⟩
  · show ((sortByScoreDesc results).take TOP_ACCOUNTS).length = _
    rw [List.length_take, (sortByScoreDesc_perm results).length_eq]
  · exact (sorted_sortByScoreDesc results).sublist (List.take_sublist _ _)

/-! ## Theorems: the degenerate enrichment behavior -/

/-- C10: `process_account` returns the same fallback record shape for
every username and every `min_followers` — `followers = None`,
`post_count = 0`, `account_score = 0.0`, `data_source = "fallback"` —
because the authorized Graph-API branch never assigns `followers`; hence
every account in a completed `/instagram/rank` response is such a record
with score exactly `0`, and the `min_followers` filter and the
real-scoring branch are unreachable. -/
theorem process_account_always_fallback :
    (∀ (u : String) (mf : Option Int),
      process_account u mf =
        some { username := u, followers := none, post_count := 0,
               account_score := 0, data_source := "fallback" }) ∧
    ∀ (provider : Nat → List SearchItem) (mf : Option Int) (fuel : Nat)
      (resp : RankResponse), discover_and_rank provider mf fuel = some resp →
      ∀ a ∈ resp.top_accounts, a.followers = none ∧ a.post_count = 0 ∧
        a.account_score = 0 ∧ a.data_source = "fallback" := by
  have h0 : round4 (fallback_score 0) = 0 := by
    norm_num [round4, roundHalfEven, fallback_score]
  have hpa : ∀ (u : String) (mf : Option Int),
      process_account u mf =
        some { username := u, followers := none, post_count := 0,
               account_score := 0, data_source := "fallback" } := by
    intro u mf
    simp [process_account, h0]
  refine ⟨hpa, ?_⟩
  intro p mf fuel resp h a ha
  unfold discover_and_rank at h
  cases hloop : discoverLoop p fuel initState with
  | none => rw [hloop] at h; exact absurd h (by simp)
  | some s =>
    rw [hloop] at h
    obtain rfl := Option.some.inj h
    have ha' : a ∈ sortByScoreDesc
        (s.usernames.filterMap fun u => process_account u mf) :=
      List.take_subset _ _ ha
    have ha2 : a ∈ s.usernames.filterMap (fun u => process_account u mf) :=
      (sortByScoreDesc_perm _).mem_iff.mp ha'
    obtain ⟨u, _, hu⟩ := List.mem_filterMap.mp ha2
    rw [hpa u mf] at hu
    obtain rfl := Option.some.inj hu
    exact ⟨rfl, rfl, rfl, rfl⟩

/-- Concrete end-to-end run on the spec's example scenario: one candidate,
score `0`, fallback data source. -/
theorem pipeline_bean_eval :
    discover_and_rank pBean none 2 =
      some { status := "success", total_accounts := 1,
             top_accounts := [{ username := "beanlove", followers := none,
                                post_count := 0, account_score := 0,
                                data_source := "fallback" }] } := by
  have hloop : discoverLoop pBean 2 initState =
      some ⟨["beanlove"], ["beanlove"], 40, 2⟩ := by decide
  have h0 : round4 (fallback_score 0) = 0 := by
    norm_num [round4, roundHalfEven, fallback_score]
  unfold discover_and_rank
  rw [hloop]
  simp [rank_accounts, process_account, sortByScoreDesc, insertByScore, h0, TOP_ACCOUNTS]

/-- Witness for C10 on the concrete run above. -/
theorem process_account_always_fallback_witness :
    (AccountRecord.mk "beanlove" none 0 0 "fallback").followers = none ∧
    (AccountRecord.mk "beanlove" none 0 0 "fallback").post_count = 0 ∧
    (AccountRecord.mk "beanlove" none 0 0 "fallback").account_score = 0 ∧
    (AccountRecord.mk "beanlove" none 0 0 "fallback").data_source = "fallback" :=
  process_account_always_fallback.2 pBean none 2
    ⟨"success", 1, [⟨"beanlove", none, 0, 0, "fallback"⟩]⟩
    pipeline_bean_eval
    ⟨"beanlove", none, 0, 0, "fallback"⟩ (by simp)
